import Mathlib

/-
Verification of the colorgrad gradient construction-and-evaluation engine.

The Rust sources are shallowly embedded: `f32` is modelled by `Colorgrad.F`
(a rational number or NaN), colors by four-channel records, and every
function is translated from the corresponding Rust item (file and item
named at each definition).  The colorimetric conversions live in the
external `csscolorparser` crate and `libm`; they are kept abstract as the
fields of a `ColorOps` record, so every theorem quantifying over `ColorOps`
holds for any external color library.
-/

namespace Colorgrad

/- Rational arithmetic is `@[irreducible]` in Batteries, which blocks `decide`
on concrete gradient evaluations; re-allow unfolding it locally. -/
attribute [local semireducible] Rat.add Rat.sub Rat.mul Rat.inv Rat.ofScientific

deriving instance DecidableEq for Except

/-- Model of `f32`: a rational number or NaN.  Infinities and signed zero are
not modelled; no code path verified here produces them (every division with a
nonzero numerator that the embedded code reaches has a nonzero divisor). -/
inductive F where
  | nan : F
  | fin : ℚ → F
deriving DecidableEq

namespace F

/-- IEEE addition on the modelled values: NaN propagates. -/
def add : F → F → F
  | fin a, fin b => fin (a + b)
  | _, _ => nan

/-- IEEE subtraction on the modelled values: NaN propagates. -/
def sub : F → F → F
  | fin a, fin b => fin (a - b)
  | _, _ => nan

/-- IEEE multiplication on the modelled values: NaN propagates. -/
def mul : F → F → F
  | fin a, fin b => fin (a * b)
  | _, _ => nan

/-- Division: NaN propagates and `x / 0` is NaN.  (IEEE returns an infinity
for `x / 0` with `x ≠ 0`; that case is never reached by the embedded code.) -/
def div : F → F → F
  | fin a, fin b => if b = 0 then nan else fin (a / b)
  | _, _ => nan

/-- The `<=` comparison of `f32`: any comparison with NaN is false. -/
def le : F → F → Bool
  | fin a, fin b => decide (a ≤ b)
  | _, _ => false

/-- The `<` comparison of `f32`: any comparison with NaN is false. -/
def lt : F → F → Bool
  | fin a, fin b => decide (a < b)
  | _, _ => false

/-- `f32::is_nan`. -/
def isNan : F → Bool
  | nan => true
  | fin _ => false

/-- `f32::abs`; NaN maps to NaN. -/
def abs : F → F
  | nan => nan
  | fin a => fin |a|

/-- `f32::clamp` (as used with finite bounds); NaN input stays NaN. -/
def clamp (x lo hi : F) : F :=
  match x, lo, hi with
  | fin a, fin l, fin h => fin (min h (max a l))
  | _, _, _ => nan


end F

/-- The opaque color value of the external `csscolorparser` crate; the core
treats it as four `f32` channels. -/
structure Color where
  r : F
  g : F
  b : F
  a : F
deriving DecidableEq

/-- `Color::new`. -/
def Color.new (r g b a : F) : Color := ⟨r, g, b, a⟩

/-- A `[f32; 4]` value (the per-stop interpolated representation). -/
structure V4 where
  v0 : F
  v1 : F
  v2 : F
  v3 : F
deriving DecidableEq

def V4.zero : V4 := ⟨.fin 0, .fin 0, .fin 0, .fin 0⟩

/-- `Color::to_array`. -/
def Color.toArray4 (c : Color) : V4 := ⟨c.r, c.g, c.b, c.a⟩

/-- src/core.rs `BlendMode` (lines 8-14): exactly the four variants of the
source enum. -/
inductive BlendMode where
  | Rgb
  | LinearRgb
  | Oklab
  | Lab
deriving DecidableEq, Fintype

/-- The colorimetric conversions of the external `csscolorparser` crate and
the `libm` functions, kept abstract.  Theorems taking a `ColorOps` hold for
every implementation of the external color library. -/
structure ColorOps where
  toLinearRgba : Color → V4
  toOklaba : Color → V4
  toLaba : Color → V4
  fromLinearRgba : F → F → F → F → Color
  fromOklaba : F → F → F → F → Color
  fromLaba : F → F → F → F → Color
  interpolateRgb : Color → Color → F → Color
  powf : F → F → F

/-- A trivial instantiation of the external conversions, used to produce
concrete witnesses.  The `Rgb` paths of the embedded code never consult it. -/
def idOps : ColorOps :=
  ⟨Color.toArray4, Color.toArray4, Color.toArray4,
   Color.new, Color.new, Color.new,
   (fun c1 c2 t => Color.new
      (F.add c1.r (F.mul t (F.sub c2.r c1.r)))
      (F.add c1.g (F.mul t (F.sub c2.g c1.g)))
      (F.add c1.b (F.mul t (F.sub c2.b c1.b)))
      (F.add c1.a (F.mul t (F.sub c2.a c1.a)))),
   (fun _ _ => F.nan)⟩

/-- src/utils.rs `convert_colors`, for a single color. -/
def convertColor (ops : ColorOps) (mode : BlendMode) (c : Color) : V4 :=
  match mode with
  | .Rgb => c.toArray4
  | .LinearRgb => ops.toLinearRgba c
  | .Oklab => ops.toOklaba c
  | .Lab => ops.toLaba c

/-- src/utils.rs `convert_colors`. -/
def convert_colors (ops : ColorOps) (colors : List Color) (mode : BlendMode) :
    List V4 :=
  colors.map (convertColor ops mode)

/-- src/utils.rs `linspace`. -/
def linspace (mn mx : F) (n : Nat) : List F :=
  (List.range n).map fun (i : ℕ) =>
    if n = 1 then mn
    else F.add mn (F.div (F.mul (.fin ((i : ℕ) : ℚ)) (F.sub mx mn)) (.fin ((n : ℚ) - 1)))

/-- src/builder.rs `GradientBuilderError`. -/
inductive GradientBuilderError where
  | InvalidHtmlColors : List String → GradientBuilderError
  | InvalidCssGradient
  | InvalidDomain
  | InvalidStops
deriving DecidableEq

/-- `f32::EPSILON` = 2⁻²³. -/
def f32Epsilon : ℚ := 1 / 2 ^ 23

def blackColor : Color := Color.new (.fin 0) (.fin 0) (.fin 0) (.fin 1)
def whiteColor : Color := Color.new (.fin 1) (.fin 1) (.fin 1) (.fin 1)

/-- Placeholder used for out-of-bounds list reads; every read of the embedded
code is in bounds on the inputs the Rust code reaches (Rust would panic). -/
def dfltColor : Color := Color.new .nan .nan .nan .nan

/-- src/builder.rs `prepare_build`, the color-defaulting step (lines 212-221):
no colors means black→white, one color is duplicated. -/
def defaultColors : List Color → List Color
  | [] => [blackColor, whiteColor]
  | [c] => [c, c]
  | cs => cs

/-- src/builder.rs `prepare_build`, the `windows(2)` scan (lines 226-230):
true when some adjacent position pair satisfies `p[0] > p[1]` (an `f32`
comparison, hence false on NaN). -/
def hasDecreasing : List F → Bool
  | p0 :: p1 :: rest => F.lt p1 p0 || hasDecreasing (p1 :: rest)
  | _ => false

/-- src/builder.rs `prepare_build`, the position-selection step
(lines 223-239). -/
def choosePositions (positions : List F) (ncolors : Nat) :
    Except GradientBuilderError (List F) :=
  if positions.isEmpty then .ok (linspace (.fin 0) (.fin 1) ncolors)
  else if positions.length = ncolors then
    if hasDecreasing positions then .error .InvalidDomain else .ok positions
  else if positions.length = 2 then
    if F.le (positions.getD 1 .nan) (positions.getD 0 .nan) then .error .InvalidDomain
    else .ok (linspace (positions.getD 0 .nan) (positions.getD 1 .nan) ncolors)
  else .error .InvalidDomain

/-- src/builder.rs `prepare_build`, the drop test of the coalescing loop
(line 253): `(pos - prev) + (next - pos) < f32::EPSILON`. -/
def dropStop (prev pos next : F) : Bool :=
  F.lt (F.add (F.sub pos prev) (F.sub next pos)) (.fin f32Epsilon)

/-- src/builder.rs `prepare_build`, the coalescing loop (lines 244-260);
`prev` is the previous original position (updated even for dropped stops),
and the last stop's `next` is its own position. -/
def coalesceGo : F → List (F × Color) → List (F × Color)
  | _, [] => []
  | prev, (p, c) :: rest =>
    let next := match rest with
      | [] => p
      | (p2, _) :: _ => p2
    if dropStop prev p next then coalesceGo p rest
    else (p, c) :: coalesceGo p rest

/-- The coalescing loop started as in the source: `prev` is initialised to
`positions[0]`. -/
def coalesce (stops : List (F × Color)) : List (F × Color) :=
  match stops with
  | [] => []
  | (p, _) :: _ => coalesceGo p stops

/-- src/builder.rs `GradientBuilder::prepare_build` (lines 197-268), for a
builder whose html/css error accumulators are empty: normalize the raw
colors and positions into the final stop table or a typed error. -/
def prepare (colors0 : List Color) (positions0 : List F) :
    Except GradientBuilderError (List Color × List F) :=
  let colors := defaultColors colors0
  match choosePositions positions0 colors.length with
  | .error e => .error e
  | .ok positions =>
    let kept := coalesce (positions.zip colors)
    if kept.length < 2 then .error .InvalidStops
    else .ok (kept.map Prod.snd, kept.map Prod.fst)

/-- Declarative drop condition for index `i` of a position list, with an
explicit `prev` for index 0: the combined signed distance of stop `i` to its
previous and next neighbors (the last stop's next neighbor being itself) is
below `f32::EPSILON`. -/
def dropIdxP (prev : F) (ps : List F) (i : ℕ) : Bool :=
  dropStop (if i = 0 then prev else ps.getD (i - 1) .nan) (ps.getD i .nan)
    (ps.getD (min (i + 1) (ps.length - 1)) .nan)

/-- Declarative drop condition of the coalescing pass: stop `i` is dropped
exactly when its combined distance to its previous neighbor (itself for the
first stop) and its next neighbor (itself for the last stop) is below
`f32::EPSILON`. -/
def dropIdx (ps : List F) (i : ℕ) : Bool :=
  dropStop (ps.getD (i - 1) .nan) (ps.getD i .nan)
    (ps.getD (min (i + 1) (ps.length - 1)) .nan)

/-- Keep the elements of `xs` whose absolute index (starting at `i`)
satisfies `f`. -/
def filterIdxGo {α : Type} (f : ℕ → Bool) : ℕ → List α → List α
  | _, [] => []
  | i, x :: xs => if f i then x :: filterIdxGo f (i + 1) xs else filterIdxGo f (i + 1) xs

/-- The coalescing pass, specified declaratively: keep exactly those stops
whose `dropIdx` condition fails. -/
def coalesceSpec (stops : List (F × Color)) : List (F × Color) :=
  filterIdxGo (fun i => ! dropIdx (stops.map Prod.fst) i) 0 stops

/-- The NaN sentinel color `Color::new(0.0, 0.0, 0.0, 1.0)` returned by every
kernel's `at` for a NaN query. -/
def sentinelColor : Color := Color.new (.fin 0) (.fin 0) (.fin 0) (.fin 1)

/-- Placeholder stop used for out-of-bounds list reads (Rust would panic). -/
def dfltStop : F × V4 := (.nan, V4.zero)

/-- The binary-search loop shared by the kernels' `at` (e.g.
src/src/gradient/linear.rs lines 60-73), over an abstract position lookup:
finds the first index in `[low, high)` whose position is not `< t`.  The
`fuel` argument only bounds the loop for structural recursion; the interval
width shrinks every iteration, so `high - low + 1` fuel always suffices and
the fuel-exhausted branch is never reached from `lowerBound`. -/
def lbGo (posAt : Nat → F) (t : F) : Nat → Nat → Nat → Nat
  | 0, low, _ => low
  | fuel + 1, low, high =>
    if low < high then
      let mid := (low + high) / 2
      if F.lt (posAt mid) t then lbGo posAt t fuel (mid + 1) high
      else lbGo posAt t fuel low mid
    else low

/-- The binary search over the whole stop array, as in the kernels' `at`. -/
def lowerBound (posAt : Nat → F) (t : F) (len : Nat) : Nat :=
  lbGo posAt t (len + 1) 0 len

/-- src/src/gradient/linear.rs `linear_interpolation` (lines 108-115). -/
def linear_interpolation (a b : V4) (t : F) : V4 :=
  ⟨F.add a.v0 (F.mul t (F.sub b.v0 a.v0)),
   F.add a.v1 (F.mul t (F.sub b.v1 a.v1)),
   F.add a.v2 (F.mul t (F.sub b.v2 a.v2)),
   F.add a.v3 (F.mul t (F.sub b.v3 a.v3))⟩

/-- The final blend-mode match of the kernels' `at` (e.g.
src/src/gradient/linear.rs lines 84-90): recover a displayable color from the
interpolated 4-tuple.  (basis.rs omits the feature-gated `Lab` arm; the arm
is included here as in linear.rs and catmull_rom.rs.) -/
def applyMode (ops : ColorOps) (mode : BlendMode) (v : V4) : Color :=
  match mode with
  | .Rgb => Color.new v.v0 v.v1 v.v2 v.v3
  | .LinearRgb => ops.fromLinearRgba v.v0 v.v1 v.v2 v.v3
  | .Oklab => ops.fromOklaba v.v0 v.v1 v.v2 v.v3
  | .Lab => ops.fromLaba v.v0 v.v1 v.v2 v.v3

/-- src/src/gradient/linear.rs `LinearGradient` (lines 16-23). -/
structure LinearGradient where
  stops : List (F × V4)
  domain : F × F
  mode : BlendMode
  first_color : Color
  last_color : Color

/-- src/src/gradient/linear.rs `LinearGradient::new` (lines 26-43).  The
source indexes `positions[0]`, `positions[len-1]`, `colors[0]`,
`colors[len-1]`; the builder guarantees at least two stops, so the defaults
of `headD`/`getLastD` are never read on built gradients. -/
def LinearGradient.new (ops : ColorOps) (colors : List Color)
    (positions : List F) (mode : BlendMode) : LinearGradient :=
  { stops := positions.zip (convert_colors ops colors mode)
    domain := (positions.headD .nan, positions.getLastD .nan)
    mode := mode
    first_color := colors.headD dfltColor
    last_color := colors.getLastD dfltColor }

/-- src/src/gradient/linear.rs `LinearGradient::at` (lines 47-91).  (`at` is
a reserved word in Lean, hence the primed name.) -/
def LinearGradient.at' (g : LinearGradient) (ops : ColorOps) (t : F) : Color :=
  if F.le t g.domain.1 then g.first_color
  else if F.le g.domain.2 t then g.last_color
  else if t.isNan then sentinelColor
  else
    let low0 := lowerBound (fun i => (g.stops.getD i dfltStop).1) t g.stops.length
    let low := if low0 = 0 then 1 else low0
    let s0 := g.stops.getD (low - 1) dfltStop
    let s1 := g.stops.getD low dfltStop
    let u := F.div (F.sub t s0.1) (F.sub s1.1 s0.1)
    applyMode ops g.mode (linear_interpolation s0.2 s1.2 u)

/-- src/src/gradient/catmull_rom.rs `to_catmull_segments` (lines 29-71), for
one channel; `powf` (from `libm`) stays abstract in `ops`.  Each output entry
is the `[a, b, c, d]` cubic of one segment. -/
def to_catmull_segments (ops : ColorOps) (values : List F) : List V4 :=
  let n := values.length
  let vals :=
    (F.sub (F.mul (.fin 2) (values.getD 0 .nan)) (values.getD 1 .nan)) ::
      (values ++
        [F.sub (F.mul (.fin 2) (values.getD (n - 1) .nan)) (values.getD (n - 2) .nan)])
  (List.range (vals.length - 3)).map fun k =>
    let i := k + 1
    let v0 := vals.getD (i - 1) .nan
    let v1 := vals.getD i .nan
    let v2 := vals.getD (i + 1) .nan
    let v3 := vals.getD (i + 2) .nan
    let alpha : F := .fin (1 / 2)
    let tension : F := .fin 0
    let t0 : F := .fin 0
    let t1 := F.add t0 (ops.powf (F.abs (F.sub v0 v1)) alpha)
    let t2 := F.add t1 (ops.powf (F.abs (F.sub v1 v2)) alpha)
    let t3 := F.add t2 (ops.powf (F.abs (F.sub v2 v3)) alpha)
    let m1 :=
      F.mul (F.mul (F.sub (.fin 1) tension) (F.sub t2 t1))
        (F.add
          (F.sub (F.div (F.sub v0 v1) (F.sub t0 t1)) (F.div (F.sub v0 v2) (F.sub t0 t2)))
          (F.div (F.sub v1 v2) (F.sub t1 t2)))
    let m2 :=
      F.mul (F.mul (F.sub (.fin 1) tension) (F.sub t2 t1))
        (F.add
          (F.sub (F.div (F.sub v1 v2) (F.sub t1 t2)) (F.div (F.sub v1 v3) (F.sub t1 t3)))
          (F.div (F.sub v2 v3) (F.sub t2 t3)))
    let m1 := if m1.isNan then .fin 0 else m1
    let m2 := if m2.isNan then .fin 0 else m2
    let a := F.add (F.add (F.sub (F.mul (.fin 2) v1) (F.mul (.fin 2) v2)) m1) m2
    let b := F.sub (F.sub (F.add (F.mul (.fin (-3)) v1) (F.mul (.fin 3) v2))
      (F.mul (.fin 2) m1)) m2
    let c := m1
    let d := v1
    ⟨a, b, c, d⟩

/-- src/src/gradient/catmull_rom.rs `CatmullRomGradient` (lines 19-27); a
segment entry holds the four channels' cubics. -/
structure CatmullRomGradient where
  segments : List (V4 × V4 × V4 × V4)
  positions : List F
  domain : F × F
  mode : BlendMode
  first_color : Color
  last_color : Color

/-- src/src/gradient/catmull_rom.rs `CatmullRomGradient::new` (lines 73-113). -/
def CatmullRomGradient.new (ops : ColorOps) (colors : List Color)
    (positions : List F) (mode : BlendMode) : CatmullRomGradient :=
  let conv := convert_colors ops colors mode
  let s1 := to_catmull_segments ops (conv.map V4.v0)
  let s2 := to_catmull_segments ops (conv.map V4.v1)
  let s3 := to_catmull_segments ops (conv.map V4.v2)
  let s4 := to_catmull_segments ops (conv.map V4.v3)
  { segments := (s1.zip (s2.zip (s3.zip s4))).map fun x => (x.1, x.2.1, x.2.2.1, x.2.2.2)
    positions := positions
    domain := (positions.headD .nan, positions.getLastD .nan)
    mode := mode
    first_color := colors.headD dfltColor
    last_color := colors.getLastD dfltColor }

/-- Evaluation of one cached cubic `a t³ + b t² + c t + d` as written in
src/src/gradient/catmull_rom.rs lines 156-159. -/
def cubicEval (seg : V4) (t3 t2 t1 : F) : F :=
  F.add (F.add (F.add (F.mul seg.v0 t3) (F.mul seg.v1 t2)) (F.mul seg.v2 t1)) seg.v3

/-- src/src/gradient/catmull_rom.rs `CatmullRomGradient::at` (lines 116-168). -/
def CatmullRomGradient.at' (g : CatmullRomGradient) (ops : ColorOps) (t : F) :
    Color :=
  if F.le t g.domain.1 then g.first_color
  else if F.le g.domain.2 t then g.last_color
  else if t.isNan then sentinelColor
  else
    let low0 := lowerBound (fun i => g.positions.getD i .nan) t g.positions.length
    let low := if low0 = 0 then 1 else low0
    let pos0 := g.positions.getD (low - 1) .nan
    let pos1 := g.positions.getD low .nan
    let seg := g.segments.getD (low - 1) (V4.zero, V4.zero, V4.zero, V4.zero)
    let t1 := F.div (F.sub t pos0) (F.sub pos1 pos0)
    let t2 := F.mul t1 t1
    let t3 := F.mul t2 t1
    applyMode ops g.mode
      ⟨cubicEval seg.1 t3 t2 t1, cubicEval seg.2.1 t3 t2 t1,
       cubicEval seg.2.2.1 t3 t2 t1, cubicEval seg.2.2.2 t3 t2 t1⟩

/-- src/src/gradient/basis.rs `basis` (lines 8-17). -/
def basisBlend (t1 v0 v1 v2 v3 : F) : F :=
  let t2 := F.mul t1 t1
  let t3 := F.mul t2 t1
  F.div
    (F.add
      (F.add
        (F.add
          (F.mul (F.sub (F.add (F.sub (.fin 1) (F.mul (.fin 3) t1)) (F.mul (.fin 3) t2)) t3) v0)
          (F.mul (F.add (F.sub (.fin 4) (F.mul (.fin 6) t2)) (F.mul (.fin 3) t3)) v1))
        (F.mul (F.sub (F.add (F.add (.fin 1) (F.mul (.fin 3) t1)) (F.mul (.fin 3) t2))
          (F.mul (.fin 3) t3)) v2))
      (F.mul t3 v3))
    (.fin 6)

/-- src/src/gradient/basis.rs `BasisGradient` (lines 19-27). -/
structure BasisGradient where
  values : List V4
  positions : List F
  domain : F × F
  mode : BlendMode
  first_color : Color
  last_color : Color

/-- src/src/gradient/basis.rs `BasisGradient::new` (lines 29-44). -/
def BasisGradient.new (ops : ColorOps) (colors : List Color)
    (positions : List F) (mode : BlendMode) : BasisGradient :=
  { values := convert_colors ops colors mode
    positions := positions
    domain := (positions.headD .nan, positions.getLastD .nan)
    mode := mode
    first_color := colors.headD dfltColor
    last_color := colors.getLastD dfltColor }

/-- One channel of the evaluation loop of src/src/gradient/basis.rs
`BasisGradient::at` (lines 88-102): virtual neighbors `v0`/`v3` are
extrapolated at the boundaries. -/
def basisChannel (values : List V4) (proj : V4 → F) (i n : Nat) (u v1 v2 : F) : F :=
  let v0 := if 0 < i then proj (values.getD (i - 1) V4.zero)
    else F.sub (F.mul (.fin 2) v1) v2
  let v3 := if i < n - 1 then proj (values.getD (i + 2) V4.zero)
    else F.sub (F.mul (.fin 2) v2) v1
  basisBlend u v0 v1 v2 v3

/-- src/src/gradient/basis.rs `BasisGradient::at` (lines 47-111). -/
def BasisGradient.at' (g : BasisGradient) (ops : ColorOps) (t : F) : Color :=
  if F.le t g.domain.1 then g.first_color
  else if F.le g.domain.2 t then g.last_color
  else if t.isNan then sentinelColor
  else
    let n := g.positions.length - 1
    let low0 := lowerBound (fun i => g.positions.getD i .nan) t g.positions.length
    let low := if low0 = 0 then 1 else low0
    let pos0 := g.positions.getD (low - 1) .nan
    let pos1 := g.positions.getD low .nan
    let val0 := g.values.getD (low - 1) V4.zero
    let val1 := g.values.getD low V4.zero
    let i := low - 1
    let u := F.div (F.sub t pos0) (F.sub pos1 pos0)
    applyMode ops g.mode
      ⟨basisChannel g.values V4.v0 i n u val0.v0 val1.v0,
       basisChannel g.values V4.v1 i n u val0.v1 val1.v1,
       basisChannel g.values V4.v2 i n u val0.v2 val1.v2,
       basisChannel g.values V4.v3 i n u val0.v3 val1.v3⟩

/-- src/src/gradient/sharp.rs `SharpGradient` (lines 8-14). -/
structure SharpGradient where
  stops : List (F × V4)
  domain : F × F
  first_color : Color
  last_color : Color

/-- src/src/gradient/sharp.rs `SharpGradient::new` (lines 16-62).  The
position-building loop writes each entry at most once right after pushing it,
so it is embedded as the equivalent per-index map: entry `k` starts from
`p[(k+1)/2]`, inner even entries gain `t`, inner odd entries lose `t`. -/
def SharpGradient.new (ops : ColorOps) (colors_in : List Color)
    (domain : F × F) (t : F) : SharpGradient :=
  let n := colors_in.length
  let colors := colors_in.flatMap fun c => [c, c]
  let t' := F.div (F.div (F.mul (F.clamp t (.fin 0) (.fin 1))
    (F.sub domain.2 domain.1)) (.fin (n : ℚ))) (.fin 4)
  let p := linspace domain.1 domain.2 (n + 1)
  let m := 2 * n
  let positions := (List.range m).map fun k =>
    let base := p.getD ((k + 1) / 2) .nan
    if k % 2 = 0 then
      if 0 < k then F.add base t' else base
    else
      if k < m - 1 then F.sub base t' else base
  { stops := positions.zip (convert_colors ops colors .Rgb)
    domain := domain
    first_color := colors_in.headD dfltColor
    last_color := colors_in.getD (n - 1) dfltColor }

/-- src/src/gradient/sharp.rs `smoothstep` (lines 113-121). -/
def smoothstep (a b : V4) (t : F) : V4 :=
  let f := fun (x y : F) =>
    F.add (F.mul (F.mul (F.mul (F.sub y x) (F.sub (.fin 3) (F.mul t (.fin 2)))) t) t) x
  ⟨f a.v0 b.v0, f a.v1 b.v1, f a.v2 b.v2, f a.v3 b.v3⟩

/-- src/src/gradient/sharp.rs `SharpGradient::at` (lines 66-106): the left
color outright on an even local segment index, the smoothstep blend on an odd
one. -/
def SharpGradient.at' (g : SharpGradient) (t : F) : Color :=
  if F.le t g.domain.1 then g.first_color
  else if F.le g.domain.2 t then g.last_color
  else if t.isNan then sentinelColor
  else
    let low0 := lowerBound (fun i => (g.stops.getD i dfltStop).1) t g.stops.length
    let low := if low0 = 0 then 1 else low0
    let i := low - 1
    let s0 := g.stops.getD i dfltStop
    let s1 := g.stops.getD low dfltStop
    if i % 2 = 0 then Color.new s0.2.v0 s0.2.v1 s0.2.v2 s0.2.v3
    else
      let u := F.div (F.sub t s0.1) (F.sub s1.1 s0.1)
      let v := smoothstep s0.2 s1.2 u
      Color.new v.v0 v.v1 v.v2 v.v3

/-- A `dyn Gradient` trait object of src/src/core.rs: its behaviour is fully
determined by the two overridable methods the wrappers use, `at` and
`domain`. -/
structure GradObj where
  at' : F → Color
  domain : F × F

def LinearGradient.toGradObj (g : LinearGradient) (ops : ColorOps) : GradObj :=
  ⟨fun t => g.at' ops t, g.domain⟩

def CatmullRomGradient.toGradObj (g : CatmullRomGradient) (ops : ColorOps) :
    GradObj :=
  ⟨fun t => g.at' ops t, g.domain⟩

def BasisGradient.toGradObj (g : BasisGradient) (ops : ColorOps) : GradObj :=
  ⟨fun t => g.at' ops t, g.domain⟩

def SharpGradient.toGradObj (g : SharpGradient) : GradObj :=
  ⟨fun t => g.at' t, g.domain⟩

/-- src/src/gradient/inverse.rs `InverseGradient` (lines 7-16): holds one
boxed inner gradient. -/
structure InverseGradient where
  inner : GradObj

/-- src/src/gradient/inverse.rs `InverseGradient::at` (lines 18-23):
`inner.at(max - t * (max - min))` with `(min, max) = inner.domain()`. -/
def InverseGradient.at' (g : InverseGradient) (t : F) : Color :=
  let mn := g.inner.domain.1
  let mx := g.inner.domain.2
  g.inner.at' (F.sub mx (F.mul t (F.sub mx mn)))

/-- `InverseGradient` does not override `Gradient::domain`, so it gets the
trait default `(0.0, 1.0)` of src/src/core.rs lines 58-61. -/
def InverseGradient.domain (_ : InverseGradient) : F × F := (.fin 0, .fin 1)

def InverseGradient.toGradObj (g : InverseGradient) : GradObj :=
  ⟨g.at', g.domain⟩

/-- src/src/core.rs `Gradient::inverse` (lines 174-179) as seen through the
trait object. -/
def GradObj.inverse (g : GradObj) : GradObj :=
  (InverseGradient.mk g).toGradObj

/-- src/src/core.rs `Gradient::sharp` (lines 97-107): sample `segment` evenly
spaced colors (twice the start color when `segment <= 1`) and build a
`SharpGradient` over the same domain. -/
def GradObj.sharp (ops : ColorOps) (g : GradObj) (segment : Nat)
    (smoothness : F) : SharpGradient :=
  let d := g.domain
  let colors :=
    if 1 < segment then (linspace d.1 d.2 segment).map g.at'
    else [g.at' d.1, g.at' d.1]
  SharpGradient.new ops colors d smoothness

/-- src/src/core.rs `GradientColors` (lines 270-301), traversed forward: the
`n` colors yielded by `colors(n)`, each at
`dmin + (i * (dmax - dmin)) / max` with `max = 0` when `n = 0` and `n - 1`
otherwise. -/
def gradientColors (g : GradObj) (total : Nat) : List Color :=
  let mx : F := if total = 0 then .fin 0 else .fin ((total : ℚ) - 1)
  (List.range total).map fun (i : ℕ) =>
    g.at' (F.add g.domain.1
      (F.div (F.mul (.fin ((i : ℕ) : ℚ)) (F.sub g.domain.2 g.domain.1)) mx))

/-- src/linearize.rs `MAX_DEPTH` (line 9). -/
def MAX_DEPTH : Nat := 7

/-- src/linearize.rs `color_diff_sq` (lines 79-84); `powf` is `libm`'s,
kept abstract. -/
def color_diff_sq (ops : ColorOps) (c1 c2 : Color) : F :=
  F.add
    (F.add
      (F.add (ops.powf (F.sub c1.r c2.r) (.fin 2)) (ops.powf (F.sub c1.g c2.g) (.fin 2)))
      (ops.powf (F.sub c1.b c2.b) (.fin 2)))
    (ops.powf (F.sub c1.a c2.a) (.fin 2))

/-- src/linearize.rs `subdivide` (lines 40-52): recursive bisection, cut off
once `depth` reaches `MAX_DEPTH`; the two recursive calls thread the stop
vector, with the midpoint pushed in between.  Total by well-founded recursion
on the remaining depth `MAX_DEPTH - depth`. -/
def subdivide (ops : ColorOps) (g : GradObj) (t0 t1 threshSq : F)
    (depth : Nat) (stops : List F) : List F :=
  if _h : MAX_DEPTH ≤ depth then stops
  else
    let mid := F.div (F.add t0 t1) (.fin 2)
    let cMidLinear := ops.interpolateRgb (g.at' t0) (g.at' t1) (.fin (1 / 2))
    if F.lt threshSq (color_diff_sq ops (g.at' mid) cMidLinear) then
      subdivide ops g mid t1 threshSq (depth + 1)
        (subdivide ops g t0 mid threshSq (depth + 1) stops ++ [mid])
    else stops
termination_by MAX_DEPTH - depth
decreasing_by all_goals omega

def redColor : Color := Color.new (.fin 1) (.fin 0) (.fin 0) (.fin 1)
def greenColor : Color := Color.new (.fin 0) (.fin 1) (.fin 0) (.fin 1)
def blueColor : Color := Color.new (.fin 0) (.fin 0) (.fin 1) (.fin 1)

/-- The 3-stop red/green/blue gradient on domain [0,1] (as built by the
builder from those three colors and no explicit positions). -/
def rgbLinear : LinearGradient :=
  LinearGradient.new idOps [redColor, greenColor, blueColor]
    [.fin 0, .fin (1 / 2), .fin 1] .Rgb

/-- `sharp(3, 0.0)` over `rgbLinear`. -/
def sharpRgb3 : SharpGradient :=
  GradObj.sharp idOps (rgbLinear.toGradObj idOps) 3 (.fin 0)

def bwLinear01 : LinearGradient :=
  LinearGradient.new idOps [blackColor, whiteColor] [.fin 0, .fin 1] .Rgb

/-- `sharp(2, 1.0)` over the black→white gradient: its odd (transition)
segments have positive width, exercising the smoothstep branch. -/
def sharpBw : SharpGradient :=
  GradObj.sharp idOps (bwLinear01.toGradObj idOps) 2 (.fin 1)

/-- The black→white gradient on domain [-100,100] of tests/g_inverse.rs. -/
def bwLinear100 : LinearGradient :=
  LinearGradient.new idOps [blackColor, whiteColor] [.fin (-100), .fin 100] .Rgb

/-- A black→white gradient on domain [0,2]. -/
def bwLinear02 : LinearGradient :=
  LinearGradient.new idOps [blackColor, whiteColor] [.fin 0, .fin 2] .Rgb

namespace F

@[simp] theorem le_nan_left (x : F) : le nan x = false := by cases x <;> rfl

@[simp] theorem le_nan_right (x : F) : le x nan = false := by cases x <;> rfl

@[simp] theorem lt_nan_left (x : F) : lt nan x = false := by cases x <;> rfl

@[simp] theorem lt_nan_right (x : F) : lt x nan = false := by cases x <;> rfl

@[simp] theorem le_fin_fin (a b : ℚ) : le (fin a) (fin b) = decide (a ≤ b) := rfl

@[simp] theorem lt_fin_fin (a b : ℚ) : lt (fin a) (fin b) = decide (a < b) := rfl

@[simp] theorem isNan_nan : isNan nan = true := rfl

@[simp] theorem isNan_fin (a : ℚ) : isNan (fin a) = false := rfl

@[simp] theorem add_nan_right (x : F) : add x nan = nan := by cases x <;> rfl

@[simp] theorem add_nan_left (x : F) : add nan x = nan := by cases x <;> rfl

theorem lt_eq_true_iff {x y : F} :
    lt x y = true ↔ ∃ a b, x = fin a ∧ y = fin b ∧ a < b := by
  cases x <;> cases y <;> simp [lt]

theorem fin_of_sub_fin {x y : F} {c : ℚ} (h : sub x y = fin c) :
    ∃ a b, x = fin a ∧ y = fin b ∧ a - b = c := by
  cases x <;> cases y <;> simp_all [sub]

theorem fin_of_add_fin {x y : F} {c : ℚ} (h : add x y = fin c) :
    ∃ a b, x = fin a ∧ y = fin b ∧ a + b = c := by
  cases x <;> cases y <;> simp_all [add]

end F

theorem linear_at'_nan (g : LinearGradient) (ops : ColorOps) :
    g.at' ops F.nan = sentinelColor := by
  simp [LinearGradient.at']

theorem catmull_at'_nan (g : CatmullRomGradient) (ops : ColorOps) :
    g.at' ops F.nan = sentinelColor := by
  simp [CatmullRomGradient.at']

theorem basis_at'_nan (g : BasisGradient) (ops : ColorOps) :
    g.at' ops F.nan = sentinelColor := by
  simp [BasisGradient.at']

theorem sharp_at'_nan (g : SharpGradient) : g.at' F.nan = sentinelColor := by
  simp [SharpGradient.at']

theorem gradientColors_one (g : GradObj) :
    gradientColors g 1 = [g.at' F.nan] := by
  have hpos :
      F.add g.domain.1
        (F.div (F.mul (.fin ((0 : ℕ) : ℚ)) (F.sub g.domain.2 g.domain.1))
          (.fin (((1 : ℕ) : ℚ) - 1))) = F.nan := by
    cases h1 : g.domain.1 <;> cases h2 : g.domain.2 <;>
      simp [F.add, F.sub, F.mul, F.div, show ((1 : ℚ) - 1 = 0) by norm_num]
  calc gradientColors g 1
      = [g.at' (F.add g.domain.1
          (F.div (F.mul (.fin ((0 : ℕ) : ℚ)) (F.sub g.domain.2 g.domain.1))
            (.fin (((1 : ℕ) : ℚ) - 1))))] := rfl
    _ = [g.at' F.nan] := by rw [hpos]

/-- C5: for every gradient of every kernel (Linear, Catmull-Rom, Basis,
Sharp), `at(NaN)` deterministically returns the sentinel color opaque black
`(0, 0, 0, 1)`; the embedded evaluators are total Lean functions, so
evaluation never fails for any `t`. -/
theorem C5_nan_sentinel :
    (∀ (g : LinearGradient) (ops : ColorOps), g.at' ops F.nan = sentinelColor) ∧
    (∀ (g : CatmullRomGradient) (ops : ColorOps), g.at' ops F.nan = sentinelColor) ∧
    (∀ (g : BasisGradient) (ops : ColorOps), g.at' ops F.nan = sentinelColor) ∧
    (∀ g : SharpGradient, g.at' F.nan = sentinelColor) ∧
    sentinelColor = Color.new (.fin 0) (.fin 0) (.fin 0) (.fin 1) :=
  ⟨linear_at'_nan, catmull_at'_nan, basis_at'_nan, sharp_at'_nan, rfl⟩

/-- C10: for every gradient, `colors(1)` yields exactly one color, namely the
gradient's value at a NaN position (the single sample position is
`domain.min + 0/0`), and for every core kernel that value is the opaque-black
NaN sentinel. -/
theorem C10_colors_one :
    (∀ g : GradObj, gradientColors g 1 = [g.at' F.nan]) ∧
    (∀ (g : LinearGradient) (ops : ColorOps),
      gradientColors (g.toGradObj ops) 1 = [sentinelColor]) ∧
    (∀ (g : CatmullRomGradient) (ops : ColorOps),
      gradientColors (g.toGradObj ops) 1 = [sentinelColor]) ∧
    (∀ (g : BasisGradient) (ops : ColorOps),
      gradientColors (g.toGradObj ops) 1 = [sentinelColor]) ∧
    (∀ g : SharpGradient, gradientColors g.toGradObj 1 = [sentinelColor]) := by
  refine ⟨gradientColors_one, ?_, ?_, ?_, ?_⟩ <;> intros <;>
    simp [gradientColors_one, LinearGradient.toGradObj, CatmullRomGradient.toGradObj,
      BasisGradient.toGradObj, SharpGradient.toGradObj, linear_at'_nan,
      catmull_at'_nan, basis_at'_nan, sharp_at'_nan]

/-- C2 counterexample: the `BlendMode` enumeration of src/src/core.rs has
exactly the four variants `Rgb`, `LinearRgb`, `Oklab`, `Lab` — there is no
HSV variant, so no gradient can be constructed with blend mode HSV. -/
theorem C2_counterexample :
    Fintype.card BlendMode = 4 ∧
    ∀ m : BlendMode,
      m = BlendMode.Rgb ∨ m = BlendMode.LinearRgb ∨ m = BlendMode.Oklab ∨
        m = BlendMode.Lab := by
  constructor
  · rfl
  · intro m; cases m <;> simp

/-- C2 (amended): `BlendMode` contains exactly the variants `Rgb`,
`LinearRgb`, `Oklab` and `Lab` (no HSV variant), and evaluation interpolates
every channel linearly in the chosen space with no circular wraparound of the
first channel: a first channel running from 350 to 10 blends to 180 at the
midpoint (the linear value), not to 0 (the shortest circular arc through
360). -/
theorem C2_blend_modes :
    (∀ m : BlendMode,
      m = BlendMode.Rgb ∨ m = BlendMode.LinearRgb ∨ m = BlendMode.Oklab ∨
        m = BlendMode.Lab) ∧
    (LinearGradient.new idOps
        [Color.new (.fin 350) (.fin (1 / 2)) (.fin (1 / 2)) (.fin 1),
         Color.new (.fin 10) (.fin (4 / 5)) (.fin (1 / 2)) (.fin 1)]
        [.fin 0, .fin 1] .Rgb).at' idOps (.fin (1 / 2)) =
      Color.new (.fin 180) (.fin (13 / 20)) (.fin (1 / 2)) (.fin 1) := by
  constructor
  · intro m; cases m <;> simp
  · decide

/-- C1 (code evaluation at the failing input): for the black→white gradient
on domain (-100, 100) of tests/g_inverse.rs, the code's inverse evaluates
`at(50)` to `inner.at(100 - 50 * 200) = inner.at(-9900)` = black, whereas the
claim (`inner.at(max - t + min)`, i.e. `inner.at(-50)`) demands 25% gray; and
the inverse's `domain()` is the trait default (0, 1), not the pass-through
(-100, 100) the claim states. -/
theorem C1_code_eval :
    prepare [blackColor, whiteColor] [.fin (-100), .fin 100] =
      .ok ([blackColor, whiteColor], [.fin (-100), .fin 100]) ∧
    (GradObj.inverse (bwLinear100.toGradObj idOps)).at' (.fin 50) = blackColor ∧
    bwLinear100.at' idOps (.fin (-50)) =
      Color.new (.fin (1 / 4)) (.fin (1 / 4)) (.fin (1 / 4)) (.fin 1) ∧
    blackColor ≠ Color.new (.fin (1 / 4)) (.fin (1 / 4)) (.fin (1 / 4)) (.fin 1) ∧
    (GradObj.inverse (bwLinear100.toGradObj idOps)).domain = (.fin 0, .fin 1) ∧
    bwLinear100.domain = (.fin (-100), .fin 100) := by
  refine ⟨by decide, by decide, by decide, by decide, rfl, by decide⟩

/-- C7 (code evaluation at the failing input): for the black→white gradient
on domain (0, 2), `inverse().inverse().at(1)` evaluates to the gradient's
color at 2 (white), not to the gradient's color at 1 (mid gray); inversion is
an involution on evaluation only for gradients whose `domain()` is (0, 1). -/
theorem C7_code_eval :
    prepare [blackColor, whiteColor] [.fin 0, .fin 2] =
      .ok ([blackColor, whiteColor], [.fin 0, .fin 2]) ∧
    ((bwLinear02.toGradObj idOps).inverse.inverse).at' (.fin 1) = whiteColor ∧
    bwLinear02.at' idOps (.fin 1) =
      Color.new (.fin (1 / 2)) (.fin (1 / 2)) (.fin (1 / 2)) (.fin 1) ∧
    whiteColor ≠ Color.new (.fin (1 / 2)) (.fin (1 / 2)) (.fin (1 / 2)) (.fin 1) := by
  refine ⟨by decide, by decide, by decide, by decide⟩

/-- C4 counterexample: feeding positions `[0, NaN]` builds successfully (the
NaN defeats both the decreasing-pair check and the coalescing test, which are
`f32` comparisons), producing a gradient whose `domain.max` is NaN; at
`domain.max` the evaluator returns the NaN sentinel (opaque black), not the
last stop color — so the endpoint law does not hold for every successfully
built gradient. -/
theorem C4_counterexample :
    prepare [redColor, blueColor] [.fin 0, .nan] =
      .ok ([redColor, blueColor], [.fin 0, .nan]) ∧
    (LinearGradient.new idOps [redColor, blueColor] [.fin 0, .nan] .Rgb).at' idOps
        ((LinearGradient.new idOps [redColor, blueColor] [.fin 0, .nan] .Rgb).domain.2) =
      sentinelColor ∧
    sentinelColor ≠ blueColor := by
  refine ⟨by decide, by decide, by decide⟩

theorem subdivide_at_max_depth (ops : ColorOps) (g : GradObj)
    (t0 t1 th : F) (stops : List F) :
    subdivide ops g t0 t1 th MAX_DEPTH stops = stops := by
  rw [subdivide]
  simp

theorem subdivide_length_le (ops : ColorOps) (g : GradObj) :
    ∀ (k depth : ℕ), MAX_DEPTH - depth ≤ k → ∀ (t0 t1 th : F) (stops : List F),
      (subdivide ops g t0 t1 th depth stops).length ≤
        stops.length + 2 ^ (MAX_DEPTH - depth) - 1 := by
  intro k
  induction k with
  | zero =>
    intro depth hd t0 t1 th stops
    have h0 : MAX_DEPTH - depth = 0 := by omega
    have hM : MAX_DEPTH ≤ depth := by omega
    rw [subdivide]
    simp [hM, h0]
  | succ k ih =>
    intro depth hd t0 t1 th stops
    by_cases hM : MAX_DEPTH ≤ depth
    · have h0 : MAX_DEPTH - depth = 0 := by omega
      rw [subdivide]
      simp [hM, h0]
    · rw [subdivide]
      rw [dif_neg hM]
      have hd1 : MAX_DEPTH - (depth + 1) ≤ k := by omega
      have hpow : 2 ^ (MAX_DEPTH - depth) = 2 * 2 ^ (MAX_DEPTH - (depth + 1)) := by
        have : MAX_DEPTH - depth = (MAX_DEPTH - (depth + 1)) + 1 := by omega
        rw [this, pow_succ]
        ring
      have hpos : 1 ≤ 2 ^ (MAX_DEPTH - (depth + 1)) := Nat.one_le_two_pow
      set mid := F.div (F.add t0 t1) (.fin 2) with hmid
      by_cases hc :
          F.lt th (color_diff_sq ops (g.at' mid)
            (ops.interpolateRgb (g.at' t0) (g.at' t1) (.fin (1 / 2)))) = true
      · rw [if_pos hc]
        have h1 := ih (depth + 1) hd1 t0 mid th stops
        have h2 := ih (depth + 1) hd1 mid t1 th
          (subdivide ops g t0 mid th (depth + 1) stops ++ [mid])
        rw [List.length_append] at h2
        simp only [List.length_cons, List.length_nil] at h2
        omega
      · rw [if_neg hc]
        omega

/-- C9: the adaptive linearizer's recursive bisection `subdivide` is total —
it is defined by well-founded recursion on the remaining depth
`MAX_DEPTH - depth` — and its output is bounded: the recursion stops
immediately at `depth = MAX_DEPTH`, and at any depth it adds at most
`2^(MAX_DEPTH - depth) - 1` midpoints to the stop list, for every input
gradient (including pathological, discontinuous ones: the bound is
independent of `g` and of the threshold). -/
theorem C9_subdivide_bounded :
    (∀ (ops : ColorOps) (g : GradObj) (t0 t1 th : F) (stops : List F),
      subdivide ops g t0 t1 th MAX_DEPTH stops = stops) ∧
    (∀ (ops : ColorOps) (g : GradObj) (t0 t1 th : F) (depth : ℕ)
        (stops : List F),
      (subdivide ops g t0 t1 th depth stops).length ≤
        stops.length + 2 ^ (MAX_DEPTH - depth) - 1) :=
  ⟨subdivide_at_max_depth,
   fun ops g t0 t1 th depth stops =>
     subdivide_length_le ops g (MAX_DEPTH - depth) depth le_rfl t0 t1 th stops⟩

theorem linear_clamp (g : LinearGradient) (ops : ColorOps)
    (h : F.lt g.domain.1 g.domain.2 = true) :
    g.at' ops g.domain.1 = g.first_color ∧
    g.at' ops g.domain.2 = g.last_color ∧
    (∀ t, F.lt t g.domain.1 = true → g.at' ops t = g.first_color) ∧
    (∀ t, F.lt g.domain.2 t = true → g.at' ops t = g.last_color) := by
  obtain ⟨a, b, h1, h2, hab⟩ := F.lt_eq_true_iff.mp h
  refine ⟨?_, ?_, ?_, ?_⟩
  · simp [LinearGradient.at', h1]
  · simp [LinearGradient.at', h1, h2, not_le.mpr hab]
  · intro t ht
    obtain ⟨c, a', hc, ha', hca⟩ := F.lt_eq_true_iff.mp ht
    rw [ha'] at h1
    cases h1
    simp [LinearGradient.at', hc, ha', le_of_lt hca]
  · intro t ht
    obtain ⟨b', c, hb', hc, hbc⟩ := F.lt_eq_true_iff.mp ht
    rw [hb'] at h2
    cases h2
    have hac : a < c := lt_trans hab hbc
    simp [LinearGradient.at', hc, h1, hb', not_le.mpr hac, le_of_lt hbc]

theorem catmull_clamp (g : CatmullRomGradient) (ops : ColorOps)
    (h : F.lt g.domain.1 g.domain.2 = true) :
    g.at' ops g.domain.1 = g.first_color ∧
    g.at' ops g.domain.2 = g.last_color ∧
    (∀ t, F.lt t g.domain.1 = true → g.at' ops t = g.first_color) ∧
    (∀ t, F.lt g.domain.2 t = true → g.at' ops t = g.last_color) := by
  obtain ⟨a, b, h1, h2, hab⟩ := F.lt_eq_true_iff.mp h
  refine ⟨?_, ?_, ?_, ?_⟩
  · simp [CatmullRomGradient.at', h1]
  · simp [CatmullRomGradient.at', h1, h2, not_le.mpr hab]
  · intro t ht
    obtain ⟨c, a', hc, ha', hca⟩ := F.lt_eq_true_iff.mp ht
    rw [ha'] at h1
    cases h1
    simp [CatmullRomGradient.at', hc, ha', le_of_lt hca]
  · intro t ht
    obtain ⟨b', c, hb', hc, hbc⟩ := F.lt_eq_true_iff.mp ht
    rw [hb'] at h2
    cases h2
    have hac : a < c := lt_trans hab hbc
    simp [CatmullRomGradient.at', hc, h1, hb', not_le.mpr hac, le_of_lt hbc]

theorem basis_clamp (g : BasisGradient) (ops : ColorOps)
    (h : F.lt g.domain.1 g.domain.2 = true) :
    g.at' ops g.domain.1 = g.first_color ∧
    g.at' ops g.domain.2 = g.last_color ∧
    (∀ t, F.lt t g.domain.1 = true → g.at' ops t = g.first_color) ∧
    (∀ t, F.lt g.domain.2 t = true → g.at' ops t = g.last_color) := by
  obtain ⟨a, b, h1, h2, hab⟩ := F.lt_eq_true_iff.mp h
  refine ⟨?_, ?_, ?_, ?_⟩
  · simp [BasisGradient.at', h1]
  · simp [BasisGradient.at', h1, h2, not_le.mpr hab]
  · intro t ht
    obtain ⟨c, a', hc, ha', hca⟩ := F.lt_eq_true_iff.mp ht
    rw [ha'] at h1
    cases h1
    simp [BasisGradient.at', hc, ha', le_of_lt hca]
  · intro t ht
    obtain ⟨b', c, hb', hc, hbc⟩ := F.lt_eq_true_iff.mp ht
    rw [hb'] at h2
    cases h2
    have hac : a < c := lt_trans hab hbc
    simp [BasisGradient.at', hc, h1, hb', not_le.mpr hac, le_of_lt hbc]

theorem sharp_clamp (g : SharpGradient)
    (h : F.lt g.domain.1 g.domain.2 = true) :
    g.at' g.domain.1 = g.first_color ∧
    g.at' g.domain.2 = g.last_color ∧
    (∀ t, F.lt t g.domain.1 = true → g.at' t = g.first_color) ∧
    (∀ t, F.lt g.domain.2 t = true → g.at' t = g.last_color) := by
  obtain ⟨a, b, h1, h2, hab⟩ := F.lt_eq_true_iff.mp h
  refine ⟨?_, ?_, ?_, ?_⟩
  · simp [SharpGradient.at', h1]
  · simp [SharpGradient.at', h1, h2, not_le.mpr hab]
  · intro t ht
    obtain ⟨c, a', hc, ha', hca⟩ := F.lt_eq_true_iff.mp ht
    rw [ha'] at h1
    cases h1
    simp [SharpGradient.at', hc, ha', le_of_lt hca]
  · intro t ht
    obtain ⟨b', c, hb', hc, hbc⟩ := F.lt_eq_true_iff.mp ht
    rw [hb'] at h2
    cases h2
    have hac : a < c := lt_trans hab hbc
    simp [SharpGradient.at', hc, h1, hb', not_le.mpr hac, le_of_lt hbc]

/-- C4 (amended): for every successfully built gradient whose domain
satisfies `domain.min < domain.max` (NaN positions can make a successful
build violate this, see the counterexample), `at(domain.min)` is the first
stop color, `at(domain.max)` is the last stop color, and every `t` below
(resp. above) the domain yields that same first (resp. last) color, for each
of the Linear, Catmull-Rom and Basis kernels built on the builder's output
and for the Sharp kernel built over any source snapshot. -/
theorem C4_endpoint_clamp :
    (∀ (ops : ColorOps) (cs0 : List Color) (ps0 : List F) (mode : BlendMode)
        (cs : List Color) (ps : List F),
      prepare cs0 ps0 = .ok (cs, ps) →
      F.lt (ps.headD F.nan) (ps.getLastD F.nan) = true →
      ((LinearGradient.new ops cs ps mode).at' ops (ps.headD F.nan) =
          cs.headD dfltColor ∧
        (LinearGradient.new ops cs ps mode).at' ops (ps.getLastD F.nan) =
          cs.getLastD dfltColor ∧
        (∀ t, F.lt t (ps.headD F.nan) = true →
          (LinearGradient.new ops cs ps mode).at' ops t = cs.headD dfltColor) ∧
        (∀ t, F.lt (ps.getLastD F.nan) t = true →
          (LinearGradient.new ops cs ps mode).at' ops t = cs.getLastD dfltColor))) ∧
    (∀ (ops : ColorOps) (cs0 : List Color) (ps0 : List F) (mode : BlendMode)
        (cs : List Color) (ps : List F),
      prepare cs0 ps0 = .ok (cs, ps) →
      F.lt (ps.headD F.nan) (ps.getLastD F.nan) = true →
      ((CatmullRomGradient.new ops cs ps mode).at' ops (ps.headD F.nan) =
          cs.headD dfltColor ∧
        (CatmullRomGradient.new ops cs ps mode).at' ops (ps.getLastD F.nan) =
          cs.getLastD dfltColor ∧
        (∀ t, F.lt t (ps.headD F.nan) = true →
          (CatmullRomGradient.new ops cs ps mode).at' ops t = cs.headD dfltColor) ∧
        (∀ t, F.lt (ps.getLastD F.nan) t = true →
          (CatmullRomGradient.new ops cs ps mode).at' ops t = cs.getLastD dfltColor))) ∧
    (∀ (ops : ColorOps) (cs0 : List Color) (ps0 : List F) (mode : BlendMode)
        (cs : List Color) (ps : List F),
      prepare cs0 ps0 = .ok (cs, ps) →
      F.lt (ps.headD F.nan) (ps.getLastD F.nan) = true →
      ((BasisGradient.new ops cs ps mode).at' ops (ps.headD F.nan) =
          cs.headD dfltColor ∧
        (BasisGradient.new ops cs ps mode).at' ops (ps.getLastD F.nan) =
          cs.getLastD dfltColor ∧
        (∀ t, F.lt t (ps.headD F.nan) = true →
          (BasisGradient.new ops cs ps mode).at' ops t = cs.headD dfltColor) ∧
        (∀ t, F.lt (ps.getLastD F.nan) t = true →
          (BasisGradient.new ops cs ps mode).at' ops t = cs.getLastD dfltColor))) ∧
    (∀ (ops : ColorOps) (colors_in : List Color) (dom : F × F) (s : F),
      F.lt dom.1 dom.2 = true →
      ((SharpGradient.new ops colors_in dom s).at' dom.1 =
          colors_in.headD dfltColor ∧
        (SharpGradient.new ops colors_in dom s).at' dom.2 =
          colors_in.getD (colors_in.length - 1) dfltColor ∧
        (∀ t, F.lt t dom.1 = true →
          (SharpGradient.new ops colors_in dom s).at' t = colors_in.headD dfltColor) ∧
        (∀ t, F.lt dom.2 t = true →
          (SharpGradient.new ops colors_in dom s).at' t =
            colors_in.getD (colors_in.length - 1) dfltColor))) := by
  refine ⟨?_, ?_, ?_, ?_⟩
  · intro ops cs0 ps0 mode cs ps _ hlt
    exact linear_clamp (LinearGradient.new ops cs ps mode) ops hlt
  · intro ops cs0 ps0 mode cs ps _ hlt
    exact catmull_clamp (CatmullRomGradient.new ops cs ps mode) ops hlt
  · intro ops cs0 ps0 mode cs ps _ hlt
    exact basis_clamp (BasisGradient.new ops cs ps mode) ops hlt
  · intro ops colors_in dom s hlt
    exact sharp_clamp (SharpGradient.new ops colors_in dom s) hlt

theorem C4_witness :
    (LinearGradient.new idOps [redColor, blueColor] [.fin 0, .fin 1] .Rgb).at'
        idOps (.fin 0) = redColor ∧
    (LinearGradient.new idOps [redColor, blueColor] [.fin 0, .fin 1] .Rgb).at'
        idOps (.fin 2) = blueColor ∧
    (SharpGradient.new idOps [redColor, blueColor] (.fin 0, .fin 1) (.fin 0)).at'
        (.fin (-1)) = redColor := by
  have h1 := C4_endpoint_clamp.1 idOps [redColor, blueColor] [] .Rgb
    [redColor, blueColor] [.fin 0, .fin 1] (by decide) (by decide)
  have h4 := C4_endpoint_clamp.2.2.2 idOps [redColor, blueColor]
    (.fin 0, .fin 1) (.fin 0) (by decide)
  exact ⟨h1.1, h1.2.2.2 (.fin 2) (by decide), h4.2.2.1 (.fin (-1)) (by decide)⟩


theorem filterIdxGo_congr {α : Type} :
    ∀ (xs : List α) (i : ℕ) (f g : ℕ → Bool),
      (∀ j, j < xs.length → f (i + j) = g (i + j)) →
      filterIdxGo f i xs = filterIdxGo g i xs := by
  intro xs
  induction xs with
  | nil => intros; rfl
  | cons x xs ih =>
    intro i f g h
    have h0 : f i = g i := by simpa using h 0 (by simp)
    have htail : ∀ j, j < xs.length → f (i + 1 + j) = g (i + 1 + j) := by
      intro j hj
      have := h (j + 1) (by simp; omega)
      have harith : i + (j + 1) = i + 1 + j := by omega
      rwa [harith] at this
    unfold filterIdxGo
    rw [h0, ih (i + 1) f g htail]

theorem filterIdxGo_shift {α : Type} :
    ∀ (xs : List α) (i : ℕ) (f : ℕ → Bool),
      filterIdxGo f (i + 1) xs = filterIdxGo (fun j => f (j + 1)) i xs := by
  intro xs
  induction xs with
  | nil => intros; rfl
  | cons x xs ih =>
    intro i f
    unfold filterIdxGo
    rw [ih (i + 1) f]

theorem dropIdxP_succ (prev pv : F) (restPos : List F) (i : ℕ)
    (hi : i < restPos.length) :
    dropIdxP prev (pv :: restPos) (i + 1) = dropIdxP pv restPos i := by
  have hmin : min (i + 1 + 1) ((pv :: restPos).length - 1) =
      min (i + 1) (restPos.length - 1) + 1 := by
    simp only [List.length_cons]
    omega
  unfold dropIdxP
  rw [hmin]
  simp only [Nat.add_sub_cancel, List.getD_cons_succ]
  congr 1
  cases i with
  | zero => simp
  | succ j => simp [List.getD_cons_succ]

theorem coalesceGo_eq :
    ∀ (stops : List (F × Color)) (prev : F),
      coalesceGo prev stops =
        filterIdxGo (fun i => ! dropIdxP prev (stops.map Prod.fst) i) 0 stops := by
  intro stops
  induction stops with
  | nil => intro prev; rfl
  | cons pc rest ih =>
    intro prev
    obtain ⟨p, c⟩ := pc
    have hf : filterIdxGo
        (fun i => ! dropIdxP prev (((p, c) :: rest).map Prod.fst) i) 1 rest =
        coalesceGo p rest := by
      rw [show (1 : ℕ) = 0 + 1 from rfl, filterIdxGo_shift rest 0]
      rw [filterIdxGo_congr rest 0 _ (fun j => ! dropIdxP p (rest.map Prod.fst) j)
        (fun j hj => ?_)]
      · exact (ih p).symm
      · simp only [Nat.zero_add, List.map_cons]
        rw [dropIdxP_succ prev p (rest.map Prod.fst) j (by simpa using hj)]
    cases rest with
    | nil =>
      have h0 : dropIdxP prev ([(p, c)].map Prod.fst) 0 = dropStop prev p p := by
        unfold dropIdxP
        simp
      show (if dropStop prev p p then [] else [(p, c)]) = _
      unfold filterIdxGo
      rw [h0]
      by_cases hd : dropStop prev p p <;> simp [hd, filterIdxGo]
    | cons q tail =>
      obtain ⟨p2, c2⟩ := q
      have h0 : dropIdxP prev (((p, c) :: (p2, c2) :: tail).map Prod.fst) 0 =
          dropStop prev p p2 := by
        unfold dropIdxP
        simp
      show (if dropStop prev p p2 then coalesceGo p ((p2, c2) :: tail)
          else (p, c) :: coalesceGo p ((p2, c2) :: tail)) = _
      conv_rhs => unfold filterIdxGo
      rw [h0, hf]
      by_cases hd : dropStop prev p p2 <;> simp [hd]

theorem coalesce_eq_spec (stops : List (F × Color)) :
    coalesce stops = coalesceSpec stops := by
  cases stops with
  | nil => rfl
  | cons pc rest =>
    obtain ⟨p, c⟩ := pc
    show coalesceGo p ((p, c) :: rest) = _
    rw [coalesceGo_eq]
    unfold coalesceSpec
    apply filterIdxGo_congr
    intro j _
    simp only [Nat.zero_add]
    cases j with
    | zero =>
      unfold dropIdxP dropIdx
      simp
    | succ k =>
      unfold dropIdxP dropIdx
      simp

/-- C3: a stop is dropped by the builder's coalescing pass exactly when its
combined distance to its previous and next neighbors' positions is below
`f32::EPSILON` (the first stop's previous neighbor and the last stop's next
neighbor being the stop itself, as in the source loop); the coalescing runs
before the at-least-2-stops validation, and when fewer than 2 stops remain
the builder fails with the typed `InvalidStops` error instead of
substituting a default. -/
theorem C3_coalesce :
    ∀ (colors0 : List Color) (positions0 : List F) (positions : List F),
      choosePositions positions0 (defaultColors colors0).length = .ok positions →
      prepare colors0 positions0 =
        (let kept := coalesceSpec (positions.zip (defaultColors colors0))
         if kept.length < 2 then .error .InvalidStops
         else .ok (kept.map Prod.snd, kept.map Prod.fst)) := by
  intro colors0 positions0 positions hch
  simp only [prepare]
  rw [hch]
  simp only [coalesce_eq_spec]

theorem C3_witness :
    choosePositions ([] : List F) (defaultColors [blackColor]).length =
      .ok [.fin 0, .fin 1] ∧
    prepare [blackColor] [] =
      (let kept := coalesceSpec ([(.fin 0 : F), .fin 1].zip (defaultColors [blackColor]))
       if kept.length < 2 then .error .InvalidStops
       else .ok (kept.map Prod.snd, kept.map Prod.fst)) :=
  ⟨by decide, C3_coalesce [blackColor] [] [.fin 0, .fin 1] (by decide)⟩


theorem linspace_chain (mn mx : F) (n : ℕ)
    (hab : ∀ x y : ℚ, mn = .fin x → mx = .fin y → x ≤ y) :
    List.Chain' (fun a b => F.lt b a = false) (linspace mn mx n) := by
  unfold linspace
  rw [List.chain'_map]
  cases n with
  | zero => simp
  | succ m =>
    rw [List.chain'_range_succ]
    intro i him
    by_cases h1 : m + 1 = 1
    · omega
    · rw [if_neg h1, if_neg h1]
      cases hmn : mn with
      | nan => simp [F.add]
      | fin a =>
        cases hmx : mx with
        | nan => simp [F.sub, F.mul, F.div, F.add]
        | fin b =>
          have hab' : a ≤ b := hab a b hmn hmx
          have hm : 1 ≤ m := by omega
          have hmq : (1 : ℚ) ≤ (m : ℚ) := by exact_mod_cast hm
          have hdenpos : (0 : ℚ) < ((m + 1 : ℕ) : ℚ) - 1 := by push_cast; linarith
          have hden : ((m + 1 : ℕ) : ℚ) - 1 ≠ 0 := ne_of_gt hdenpos
          have hdp : (0 : ℚ) < (m : ℚ) + 1 - 1 := by linarith
          simp only [F.sub, F.mul, F.div, if_neg hden, F.add, F.lt_fin_fin,
            decide_eq_false_iff_not, not_lt, div_eq_mul_inv]
          push_cast
          nlinarith [mul_nonneg (sub_nonneg.mpr hab') (inv_nonneg.mpr hdp.le)]

theorem hasDecreasing_false_chain :
    ∀ ps : List F, hasDecreasing ps = false →
      List.Chain' (fun a b => F.lt b a = false) ps := by
  intro ps
  induction ps with
  | nil => intro; simp
  | cons p0 rest ih =>
    cases rest with
    | nil => intro; simp
    | cons p1 tail =>
      intro h
      have h' : F.lt p1 p0 = false ∧ hasDecreasing (p1 :: tail) = false := by
        have : (F.lt p1 p0 || hasDecreasing (p1 :: tail)) = false := h
        simpa [Bool.or_eq_false_iff] using this
      exact List.chain'_cons.mpr ⟨h'.1, ih h'.2⟩

theorem exists_decreasing_hasDecreasing :
    ∀ ps : List F, ∀ i : ℕ, i + 1 < ps.length →
      F.lt (ps.getD (i + 1) .nan) (ps.getD i .nan) = true →
      hasDecreasing ps = true := by
  intro ps
  induction ps with
  | nil => intro i hi; simp at hi
  | cons p0 rest ih =>
    intro i hi hlt
    cases rest with
    | nil => simp at hi
    | cons p1 tail =>
      show (F.lt p1 p0 || hasDecreasing (p1 :: tail)) = true
      cases i with
      | zero =>
        simp only [List.getD_cons_succ, List.getD_cons_zero] at hlt
        simp [hlt]
      | succ j =>
        have hj : j + 1 < (p1 :: tail).length := by
          simpa using Nat.lt_of_succ_lt_succ hi
        simp only [List.getD_cons_succ] at hlt
        simp [ih j hj hlt]

theorem chooseP_ok_length (ps : List F) (n : ℕ) (out : List F)
    (h : choosePositions ps n = .ok out) : out.length = n := by
  unfold choosePositions at h
  by_cases h1 : ps.isEmpty
  · rw [if_pos h1] at h
    cases h
    simp [linspace]
  · rw [if_neg h1] at h
    by_cases h2 : ps.length = n
    · rw [if_pos h2] at h
      by_cases h3 : hasDecreasing ps
      · rw [if_pos h3] at h; cases h
      · rw [if_neg h3] at h; cases h; exact h2
    · rw [if_neg h2] at h
      by_cases h4 : ps.length = 2
      · rw [if_pos h4] at h
        by_cases h5 : F.le (ps.getD 1 .nan) (ps.getD 0 .nan)
        · rw [if_pos h5] at h; cases h
        · rw [if_neg h5] at h; cases h; simp [linspace]
      · rw [if_neg h4] at h; cases h

theorem chooseP_ok_chain (ps : List F) (n : ℕ) (out : List F)
    (h : choosePositions ps n = .ok out) :
    List.Chain' (fun a b => F.lt b a = false) out := by
  unfold choosePositions at h
  by_cases h1 : ps.isEmpty
  · rw [if_pos h1] at h
    cases h
    refine linspace_chain _ _ _ (fun x y hx hy => ?_)
    cases hx; cases hy
    · exact zero_le_one
  · rw [if_neg h1] at h
    by_cases h2 : ps.length = n
    · rw [if_pos h2] at h
      by_cases h3 : hasDecreasing ps
      · rw [if_pos h3] at h; cases h
      · rw [if_neg h3] at h
        cases h
        exact hasDecreasing_false_chain _ (Bool.not_eq_true _ ▸ eq_false_of_ne_true h3)
    · rw [if_neg h2] at h
      by_cases h4 : ps.length = 2
      · rw [if_pos h4] at h
        by_cases h5 : F.le (ps.getD 1 .nan) (ps.getD 0 .nan)
        · rw [if_pos h5] at h; cases h
        · rw [if_neg h5] at h
          cases h
          refine linspace_chain _ _ _ (fun x y hx hy => ?_)
          rw [hx, hy] at h5
          simp only [F.le_fin_fin, decide_eq_true_eq] at h5
          exact le_of_lt (lt_of_not_le h5)
      · rw [if_neg h4] at h; cases h

theorem lt_self_false (x : F) : F.lt x x = false := by
  cases x <;> simp [F.lt]

theorem lt_false_trans {x y z : F} (hy : y.isNan = false)
    (h1 : F.lt y x = false) (h2 : F.lt z y = false) : F.lt z x = false := by
  cases x <;> cases y <;> cases z <;> simp_all [F.lt, not_lt]
  linarith

theorem dropStop_fin {prev p next : F} (h : dropStop prev p next = true) :
    ∃ a b : ℚ, prev = .fin a ∧ p = .fin b := by
  unfold dropStop at h
  obtain ⟨s, e, hs, _, _⟩ := F.lt_eq_true_iff.mp h
  obtain ⟨u, v, hu, _, _⟩ := F.fin_of_add_fin hs
  obtain ⟨b, a, hb, ha, _⟩ := F.fin_of_sub_fin hu
  exact ⟨a, b, ha, hb⟩

theorem coalesceGo_cons (prev p : F) (c : Color) (rest : List (F × Color)) :
    coalesceGo prev ((p, c) :: rest) =
      if dropStop prev p
          (match rest with | [] => p | (p2, _) :: _ => p2)
      then coalesceGo p rest else (p, c) :: coalesceGo p rest := rfl

theorem coalesceGo_chain :
    ∀ (stops : List (F × Color)) (prev : F),
      List.Chain' (fun a b => F.lt b a = false) (prev :: stops.map Prod.fst) →
      List.Chain' (fun a b => F.lt b a = false)
        (prev :: (coalesceGo prev stops).map Prod.fst) := by
  intro stops
  induction stops with
  | nil => intro prev _; simp [coalesceGo]
  | cons pc rest ih =>
    intro prev hch
    obtain ⟨p, c⟩ := pc
    rw [List.map_cons, List.chain'_cons] at hch
    obtain ⟨hpp, htail⟩ := hch
    cases rest with
    | nil =>
      show List.Chain' _ (prev ::
        (if dropStop prev p p then [] else [(p, c)]).map Prod.fst)
      by_cases hd : dropStop prev p p
      · rw [if_pos hd]; simp
      · rw [if_neg hd]
        simpa using List.chain'_pair.mpr hpp
    | cons q tail =>
      obtain ⟨p2, c2⟩ := q
      show List.Chain' _ (prev ::
        (if dropStop prev p p2 then coalesceGo p ((p2, c2) :: tail)
         else (p, c) :: coalesceGo p ((p2, c2) :: tail)).map Prod.fst)
      by_cases hd : dropStop prev p p2
      · rw [if_pos hd]
        have hih := ih p htail
        obtain ⟨a, b, _, hpfin⟩ := dropStop_fin hd
        have hpnan : p.isNan = false := by rw [hpfin]; rfl
        obtain ⟨hhead, hrest⟩ := List.chain'_cons'.mp hih
        exact List.chain'_cons'.mpr
          ⟨fun y hy => lt_false_trans hpnan hpp (hhead y hy), hrest⟩
      · rw [if_neg hd, List.map_cons]
        exact List.chain'_cons.mpr ⟨hpp, ih p htail⟩

theorem defaultColors_length (cs : List Color) : 2 ≤ (defaultColors cs).length := by
  match cs with
  | [] => simp [defaultColors]
  | [c] => simp [defaultColors]
  | a :: b :: t => simp [defaultColors]

theorem defaultColors_of_two_le (cs : List Color) (h : 2 ≤ cs.length) :
    defaultColors cs = cs := by
  match cs with
  | [] => simp at h
  | [c] => simp at h
  | a :: b :: t => rfl

theorem prepare_ok_chain (cs0 cs : List Color) (ps0 ps : List F)
    (h : prepare cs0 ps0 = .ok (cs, ps)) :
    List.Chain' (fun a b => F.lt b a = false) ps := by
  rw [prepare] at h
  cases hch : choosePositions ps0 (defaultColors cs0).length with
  | error e => rw [hch] at h; cases h
  | ok positions =>
    rw [hch] at h
    simp only at h
    by_cases hk : (coalesce (positions.zip (defaultColors cs0))).length < 2
    · rw [if_pos hk] at h; cases h
    · rw [if_neg hk] at h
      have hps : ps = (coalesce (positions.zip (defaultColors cs0))).map Prod.fst := by
        have := (Except.ok.injEq _ _).mp h
        exact ((Prod.mk.injEq _ _ _ _).mp this).2.symm
      have hlen := chooseP_ok_length _ _ _ hch
      cases hzip : positions.zip (defaultColors cs0) with
      | nil =>
        rw [hzip] at hk
        simp [coalesce] at hk
      | cons q rest =>
        obtain ⟨p, c0⟩ := q
        have hmapfst : ((p, c0) :: rest).map Prod.fst = positions := by
          rw [← hzip]
          exact List.map_fst_zip _ _ (le_of_eq hlen)
        have hposchain := chooseP_ok_chain _ _ _ hch
        have hpos_eq : positions = p :: rest.map Prod.fst := by
          rw [← hmapfst]; simp
        have hchain2 : List.Chain' (fun a b => F.lt b a = false)
            (p :: ((p, c0) :: rest).map Prod.fst) := by
          rw [hmapfst, hpos_eq]
          rw [hpos_eq] at hposchain
          exact List.chain'_cons.mpr ⟨lt_self_false p, hposchain⟩
        have hmain := coalesceGo_chain ((p, c0) :: rest) p hchain2
        have hco : coalesce (positions.zip (defaultColors cs0)) =
            coalesceGo p ((p, c0) :: rest) := by
          rw [hzip]; rfl
        rw [hps, hco]
        exact hmain.tail

theorem prepare_decreasing_invalid (cs0 : List Color) (ps0 : List F)
    (hc : 2 ≤ cs0.length) (hlen : ps0.length = cs0.length)
    (i : ℕ) (hi : i + 1 < ps0.length)
    (hdec : F.lt (ps0.getD (i + 1) .nan) (ps0.getD i .nan) = true) :
    prepare cs0 ps0 = .error .InvalidDomain := by
  have hdc : defaultColors cs0 = cs0 := defaultColors_of_two_le cs0 hc
  have hne : ps0.isEmpty = false := by
    cases ps0 with
    | nil => simp at hi
    | cons a t => rfl
  have hdecb := exists_decreasing_hasDecreasing ps0 i hi hdec
  have hch : choosePositions ps0 (defaultColors cs0).length =
      .error .InvalidDomain := by
    unfold choosePositions
    rw [if_neg (by simp [hne]), if_pos (by rw [hdc]; exact hlen), if_pos hdecb]
  rw [prepare, hch]

/-- C6: the builder never returns a stop table with a decreasing position
sequence.  When exactly N explicit positions are given for the N colors,
construction fails with the typed `InvalidDomain` error as soon as some
adjacent pair of positions is decreasing (an `f32` `>` comparison); and every
successfully built table has positions with no adjacent `f32`-decreasing
pair. -/
theorem C6_monotonic :
    (∀ (cs0 : List Color) (ps0 : List F) (i : ℕ),
      2 ≤ cs0.length → ps0.length = cs0.length → i + 1 < ps0.length →
      F.lt (ps0.getD (i + 1) .nan) (ps0.getD i .nan) = true →
      prepare cs0 ps0 = .error .InvalidDomain) ∧
    (∀ (cs0 cs : List Color) (ps0 ps : List F),
      prepare cs0 ps0 = .ok (cs, ps) →
      List.Chain' (fun a b => F.lt b a = false) ps) :=
  ⟨fun cs0 ps0 i hc hlen hi hdec =>
      prepare_decreasing_invalid cs0 ps0 hc hlen i hi hdec,
   fun cs0 cs ps0 ps h => prepare_ok_chain cs0 cs ps0 ps h⟩

theorem C6_witness :
    prepare [redColor, blueColor] [.fin 1, .fin 0] = .error .InvalidDomain ∧
    List.Chain' (fun a b => F.lt b a = false) [.fin 0, .fin (1 / 2), .fin 1] :=
  ⟨C6_monotonic.1 [redColor, blueColor] [.fin 1, .fin 0] 0 (by decide) (by decide)
      (by decide) (by decide),
   C6_monotonic.2 [redColor, greenColor, blueColor] [redColor, greenColor, blueColor]
      [] [.fin 0, .fin (1 / 2), .fin 1] (by decide)⟩

theorem lbGo_spec (posAt : ℕ → F) (t : F) :
    ∀ (fuel low high k : ℕ), high - low < fuel →
      low ≤ k → k ≤ high →
      (∀ i, low ≤ i → i < k → F.lt (posAt i) t = true) →
      (∀ i, k ≤ i → i < high → F.lt (posAt i) t = false) →
      lbGo posAt t fuel low high = k := by
  intro fuel
  induction fuel with
  | zero => intro low high k hf; omega
  | succ fuel ih =>
    intro low high k hf hlk hkh hlo hhi
    have hstep : lbGo posAt t (fuel + 1) low high =
        (if low < high then
          (if F.lt (posAt ((low + high) / 2)) t then
            lbGo posAt t fuel ((low + high) / 2 + 1) high
          else lbGo posAt t fuel low ((low + high) / 2))
         else low) := rfl
    rw [hstep]
    by_cases hlh : low < high
    · rw [if_pos hlh]
      have hmlow : low ≤ (low + high) / 2 := by omega
      have hmhigh : (low + high) / 2 < high := by omega
      by_cases hcond : F.lt (posAt ((low + high) / 2)) t = true
      · rw [if_pos hcond]
        have hmk : (low + high) / 2 + 1 ≤ k := by
          by_contra hcon
          have h1 : k ≤ (low + high) / 2 := by omega
          have hfalse := hhi ((low + high) / 2) h1 hmhigh
          rw [hcond] at hfalse
          cases hfalse
        exact ih ((low + high) / 2 + 1) high k (by omega) hmk hkh
          (fun i h1 h2 => hlo i (by omega) h2) hhi
      · rw [if_neg hcond]
        have hkm : k ≤ (low + high) / 2 := by
          by_contra hcon
          exact hcond (hlo ((low + high) / 2) hmlow (by omega))
        exact ih low ((low + high) / 2) k (by omega) hlk hkm
          (fun i h1 h2 => hlo i h1 h2) (fun i h1 h2 => hhi i h1 (by omega))
    · rw [if_neg hlh]
      omega

theorem lowerBound_spec (posAt : ℕ → F) (t : F) (len k : ℕ)
    (hk : k ≤ len)
    (hlo : ∀ i, i < k → F.lt (posAt i) t = true)
    (hhi : ∀ i, k ≤ i → i < len → F.lt (posAt i) t = false) :
    lowerBound posAt t len = k :=
  lbGo_spec posAt t (len + 1) 0 len k (by omega) (Nat.zero_le k) hk
    (fun i _ h2 => hlo i h2) hhi

theorem sharp_at'_eval_even (g : SharpGradient) (t : F) (k : ℕ)
    (hk1 : 1 ≤ k) (heven : (k - 1) % 2 = 0)
    (hnotlow : F.le t g.domain.1 = false)
    (hnothigh : F.le g.domain.2 t = false)
    (hnan : t.isNan = false)
    (hk : k ≤ g.stops.length)
    (hlo : ∀ i, i < k → F.lt ((g.stops.getD i dfltStop).1) t = true)
    (hhi : ∀ i, k ≤ i → i < g.stops.length →
      F.lt ((g.stops.getD i dfltStop).1) t = false) :
    g.at' t =
      Color.new (g.stops.getD (k - 1) dfltStop).2.v0
        (g.stops.getD (k - 1) dfltStop).2.v1
        (g.stops.getD (k - 1) dfltStop).2.v2
        (g.stops.getD (k - 1) dfltStop).2.v3 := by
  unfold SharpGradient.at'
  rw [if_neg (by simp [hnotlow]), if_neg (by simp [hnothigh]),
    if_neg (by simp [hnan])]
  rw [lowerBound_spec _ _ _ k hk hlo hhi]
  have hk0 : ¬ (k = 0) := by omega
  simp only [if_neg hk0, if_pos heven]

theorem sharpRgb3_red (q : ℚ) (h0 : 0 < q) (h1 : q ≤ 1 / 3) :
    sharpRgb3.at' (.fin q) = redColor := by
  have hlen : sharpRgb3.stops.length = 6 := by decide
  have heval := sharp_at'_eval_even sharpRgb3 (.fin q) 1 (by omega) (by decide)
    (by rw [show sharpRgb3.domain.1 = F.fin 0 from rfl]
        simp only [F.le_fin_fin, decide_eq_false_iff_not, not_le]
        exact h0)
    (by rw [show sharpRgb3.domain.2 = F.fin 1 from rfl]
        simp only [F.le_fin_fin, decide_eq_false_iff_not, not_le]
        linarith)
    rfl (by omega)
    (by intro i hi
        have h : i = 0 := by omega
        subst h
        rw [show (sharpRgb3.stops.getD 0 dfltStop).1 = F.fin 0 from by decide]
        simp only [F.lt_fin_fin, decide_eq_true_eq]
        exact h0)
    (by intro i hi1 hi2
        rw [hlen] at hi2
        interval_cases i
        · rw [show (sharpRgb3.stops.getD 1 dfltStop).1 = F.fin (1 / 3) from by decide]
          simp only [F.lt_fin_fin, decide_eq_false_iff_not, not_lt]
          exact h1
        · rw [show (sharpRgb3.stops.getD 2 dfltStop).1 = F.fin (1 / 3) from by decide]
          simp only [F.lt_fin_fin, decide_eq_false_iff_not, not_lt]
          exact h1
        · rw [show (sharpRgb3.stops.getD 3 dfltStop).1 = F.fin (2 / 3) from by decide]
          simp only [F.lt_fin_fin, decide_eq_false_iff_not, not_lt]
          linarith
        · rw [show (sharpRgb3.stops.getD 4 dfltStop).1 = F.fin (2 / 3) from by decide]
          simp only [F.lt_fin_fin, decide_eq_false_iff_not, not_lt]
          linarith
        · rw [show (sharpRgb3.stops.getD 5 dfltStop).1 = F.fin 1 from by decide]
          simp only [F.lt_fin_fin, decide_eq_false_iff_not, not_lt]
          linarith)
  rw [heval]
  decide

theorem sharpRgb3_green (q : ℚ) (h0 : 1 / 3 < q) (h1 : q ≤ 2 / 3) :
    sharpRgb3.at' (.fin q) = greenColor := by
  have hlen : sharpRgb3.stops.length = 6 := by decide
  have heval := sharp_at'_eval_even sharpRgb3 (.fin q) 3 (by omega) (by decide)
    (by rw [show sharpRgb3.domain.1 = F.fin 0 from rfl]
        simp only [F.le_fin_fin, decide_eq_false_iff_not, not_le]
        linarith)
    (by rw [show sharpRgb3.domain.2 = F.fin 1 from rfl]
        simp only [F.le_fin_fin, decide_eq_false_iff_not, not_le]
        linarith)
    rfl (by omega)
    (by intro i hi
        interval_cases i
        · rw [show (sharpRgb3.stops.getD 0 dfltStop).1 = F.fin 0 from by decide]
          simp only [F.lt_fin_fin, decide_eq_true_eq]
          linarith
        · rw [show (sharpRgb3.stops.getD 1 dfltStop).1 = F.fin (1 / 3) from by decide]
          simp only [F.lt_fin_fin, decide_eq_true_eq]
          exact h0
        · rw [show (sharpRgb3.stops.getD 2 dfltStop).1 = F.fin (1 / 3) from by decide]
          simp only [F.lt_fin_fin, decide_eq_true_eq]
          exact h0)
    (by intro i hi1 hi2
        rw [hlen] at hi2
        interval_cases i
        · rw [show (sharpRgb3.stops.getD 3 dfltStop).1 = F.fin (2 / 3) from by decide]
          simp only [F.lt_fin_fin, decide_eq_false_iff_not, not_lt]
          exact h1
        · rw [show (sharpRgb3.stops.getD 4 dfltStop).1 = F.fin (2 / 3) from by decide]
          simp only [F.lt_fin_fin, decide_eq_false_iff_not, not_lt]
          exact h1
        · rw [show (sharpRgb3.stops.getD 5 dfltStop).1 = F.fin 1 from by decide]
          simp only [F.lt_fin_fin, decide_eq_false_iff_not, not_lt]
          linarith)
  rw [heval]
  decide

theorem sharpRgb3_blue (q : ℚ) (h0 : 2 / 3 < q) :
    sharpRgb3.at' (.fin q) = blueColor := by
  by_cases hq1 : 1 ≤ q
  · unfold SharpGradient.at'
    rw [if_neg (by
      rw [show sharpRgb3.domain.1 = F.fin 0 from rfl]
      simp only [F.le_fin_fin, decide_eq_true_eq]
      linarith)]
    rw [if_pos (by
      rw [show sharpRgb3.domain.2 = F.fin 1 from rfl]
      simp only [F.le_fin_fin, decide_eq_true_eq]
      exact hq1)]
    decide
  · have hq1' : q < 1 := lt_of_not_le hq1
    have hlen : sharpRgb3.stops.length = 6 := by decide
    have heval := sharp_at'_eval_even sharpRgb3 (.fin q) 5 (by omega) (by decide)
      (by rw [show sharpRgb3.domain.1 = F.fin 0 from rfl]
          simp only [F.le_fin_fin, decide_eq_false_iff_not, not_le]
          linarith)
      (by rw [show sharpRgb3.domain.2 = F.fin 1 from rfl]
          simp only [F.le_fin_fin, decide_eq_false_iff_not, not_le]
          exact hq1')
      rfl (by omega)
      (by intro i hi
          interval_cases i
          · rw [show (sharpRgb3.stops.getD 0 dfltStop).1 = F.fin 0 from by decide]
            simp only [F.lt_fin_fin, decide_eq_true_eq]
            linarith
          · rw [show (sharpRgb3.stops.getD 1 dfltStop).1 = F.fin (1 / 3) from by decide]
            simp only [F.lt_fin_fin, decide_eq_true_eq]
            linarith
          · rw [show (sharpRgb3.stops.getD 2 dfltStop).1 = F.fin (1 / 3) from by decide]
            simp only [F.lt_fin_fin, decide_eq_true_eq]
            linarith
          · rw [show (sharpRgb3.stops.getD 3 dfltStop).1 = F.fin (2 / 3) from by decide]
            simp only [F.lt_fin_fin, decide_eq_true_eq]
            exact h0
          · rw [show (sharpRgb3.stops.getD 4 dfltStop).1 = F.fin (2 / 3) from by decide]
            simp only [F.lt_fin_fin, decide_eq_true_eq]
            exact h0)
      (by intro i hi1 hi2
          rw [hlen] at hi2
          interval_cases i
          rw [show (sharpRgb3.stops.getD 5 dfltStop).1 = F.fin 1 from by decide]
          simp only [F.lt_fin_fin, decide_eq_false_iff_not, not_lt]
          linarith)
    rw [heval]
    decide

/-- C8: a sharp gradient evaluates a query by returning the segment's left
color outright on an even local segment index and by smooth-step (cubic ease,
not linear) interpolation on an odd one.  For `sharp(3, 0.0)` over the 3-stop
red/green/blue gradient on [0,1] this yields piecewise-constant output: red on
all of (0, 1/3] (hence at 0.1), green on (1/3, 2/3] (hence at 0.5), blue
above 2/3 (hence at 0.9) — hard transitions at exact thirds.  With positive
smoothness the odd (transition) segments are exercised: for `sharp(2, 1.0)`
over black→white the transition band [3/8, 5/8] blends by smoothstep — the
midpoint gives 1/2, and the quarter point gives 5/32, not the linear 1/4. -/
theorem C8_sharp :
    prepare [redColor, greenColor, blueColor] [] =
      .ok ([redColor, greenColor, blueColor], [.fin 0, .fin (1 / 2), .fin 1]) ∧
    (∀ q : ℚ, 0 < q → q ≤ 1 / 3 → sharpRgb3.at' (.fin q) = redColor) ∧
    (∀ q : ℚ, 1 / 3 < q → q ≤ 2 / 3 → sharpRgb3.at' (.fin q) = greenColor) ∧
    (∀ q : ℚ, 2 / 3 < q → sharpRgb3.at' (.fin q) = blueColor) ∧
    sharpRgb3.at' (.fin (1 / 10)) = redColor ∧
    sharpRgb3.at' (.fin (1 / 2)) = greenColor ∧
    sharpRgb3.at' (.fin (9 / 10)) = blueColor ∧
    sharpBw.at' (.fin (1 / 2)) =
      Color.new (.fin (1 / 2)) (.fin (1 / 2)) (.fin (1 / 2)) (.fin 1) ∧
    sharpBw.at' (.fin (7 / 16)) =
      Color.new (.fin (5 / 32)) (.fin (5 / 32)) (.fin (5 / 32)) (.fin 1) ∧
    Color.new (.fin (5 / 32)) (.fin (5 / 32)) (.fin (5 / 32)) (.fin 1) ≠
      Color.new (.fin (1 / 4)) (.fin (1 / 4)) (.fin (1 / 4)) (.fin 1) := by
  refine ⟨by decide, sharpRgb3_red, sharpRgb3_green, sharpRgb3_blue,
    by decide, by decide, by decide, by decide, by decide, by decide⟩

theorem C8_witness :
    sharpRgb3.at' (.fin (1 / 4)) = redColor ∧
    sharpRgb3.at' (.fin (3 / 5)) = greenColor ∧
    sharpRgb3.at' (.fin (99 / 100)) = blueColor :=
  ⟨C8_sharp.2.1 (1 / 4) (by norm_num) (by norm_num),
   C8_sharp.2.2.1 (3 / 5) (by norm_num) (by norm_num),
   C8_sharp.2.2.2.1 (99 / 100) (by norm_num)⟩


end Colorgrad
